import Mathlib

/-!
Verification development for the svckit pub/sub broker core.

It embeds, shallowly in Lean:
* the `amp` wire envelope (`Msg`) with its lazy, cached, size-gated
  compression (`marshal`, `payload`, `deflate`, `Undeflate`, `Parse`)
  from `src/amp/amp.go`;
* the per-topic `Broker` (subscriber lifecycle, full-then-diff delivery)
  and the process-wide registry (`FindBroker`, `GetFullDiffBroker`,
  `GetBufferedBroker`, `CleanUpBrokers`) from the broker package.

External collaborators (Go `encoding/json`, `compress/flate`) are taken
as parameters with their contracts as explicit hypotheses; the ring
buffer state store, whose implementation file is not part of the
sources, is modelled from the specification.
-/

namespace Amp

/-- Compression constants, from `amp.go`: `CompressionNone`, `CompressionDeflate`. -/
def CompressionNone : Nat := 0

/-- `CompressionDeflate` constant from `amp.go`. -/
def CompressionDeflate : Nat := 1

/-- `compressionLenLimit = 8 * 1024`: do not compress messages smaller than this. -/
def compressionLenLimit : Nat := 8 * 1024

/-- The single separator byte `separtor = []byte{10}` from `amp.go`
(here just the byte value). -/
def separtorByte : Nat := 10

/-- Header fields of the wire message `Msg` from `amp.go` (the JSON-tagged,
exported fields). Bytes are `Nat`s, Go `uint8`/`uint64` become `Nat`,
`int64` becomes `Int`. -/
structure MsgHeader where
  type : Nat
  replyTo : String
  correlationID : Nat
  error : String
  errorCode : Int
  uri : String
  ts : Int
  updateType : Nat
  replay : Nat
  subscriptions : List (String × Int)
deriving DecidableEq, Repr

/-- The all-zero header: every field at its Go zero value, so every
`omitempty` field is omitted from the JSON encoding. -/
def zeroHeader : MsgHeader :=
  { type := 0, replyTo := "", correlationID := 0, error := "", errorCode := 0,
    uri := "", ts := 0, updateType := 0, replay := 0, subscriptions := [] }

/-- Mutable part of a `Msg` relevant to marshalling: the header, the raw
byte body, the memoized `noCompression` flag and the per-compression-mode
payload cache (`payloads map[uint8][]byte`). -/
structure MsgSt where
  header : MsgHeader
  body : List Nat
  noCompression : Bool
  payloads : List (Nat × List Nat)
deriving DecidableEq, Repr

/-- Association-list lookup standing in for the Go map read `m.payloads[key]`. -/
def alookup : List (Nat × List Nat) → Nat → Option (List Nat)
  | [], _ => none
  | (k, v) :: rest, key => if k = key then some v else alookup rest key

/-- Association-list insert standing in for the Go map write `m.payloads[key] = v`. -/
def ainsert : List (Nat × List Nat) → Nat → List Nat → List (Nat × List Nat)
  | [], key, v => [(key, v)]
  | (k, w) :: rest, key, v =>
      if k = key then (k, v) :: rest else (k, w) :: ainsert rest key v

/-- `Msg.payload` from `amp.go`: JSON header, one separator byte, then the raw
body bytes. The JSON encoder `jm` (Go `encoding/json`) is a parameter.
We model raw-byte-body envelopes, so the `m.src` branch is absent. -/
def payloadBytes (jm : MsgHeader → List Nat) (m : MsgSt) : List Nat :=
  jm m.header ++ [separtorByte] ++ m.body

/-- `payloadKey` from `amp.go` (identity on the compression mode). -/
def payloadKey (compression : Nat) : Nat := compression

/-- `deflate` from `amp.go`: run the flate writer `fc` (Go `compress/flate`
with `Close`), then trim the trailing 4 bytes when longer than 4. -/
def deflate (fc : List Nat → List Nat) (src : List Nat) : List Nat :=
  let buf := fc src
  if 4 < buf.length then buf.take (buf.length - 4) else buf

/-- `Undeflate` from `amp.go`: append the raw-deflate terminator
`00 00 ff ff` and run the flate reader `fd`. -/
def Undeflate (fd : List Nat → List Nat) (data : List Nat) : List Nat :=
  fd (data ++ [0x00, 0x00, 0xff, 0xff])

/-- `Msg.marshal` from `amp.go`. Returns the payload, the `usedCompression`
flag, and the updated message state (cache and `noCompression` memo).
Faithful details: the cache key is computed from the compression mode
*before* the size threshold is applied, the threshold compares the whole
payload (header + separator + body) against `compressionLenLimit`, and a
sub-threshold payload permanently sets `noCompression`. -/
def marshal (jm : MsgHeader → List Nat) (fc : List Nat → List Nat)
    (supportedCompression : Nat) (m : MsgSt) : List Nat × Bool × MsgSt :=
  let compression0 := if m.noCompression then CompressionNone else supportedCompression
  let key := payloadKey compression0
  match alookup m.payloads key with
  | some payload => (payload, decide (compression0 ≠ CompressionNone), m)
  | none =>
      let payload0 := payloadBytes jm m
      let small := payload0.length < compressionLenLimit
      let noComp := if small then true else m.noCompression
      let compression := if small then CompressionNone else compression0
      let payload := if compression = CompressionDeflate then deflate fc payload0 else payload0
      (payload, decide (compression ≠ CompressionNone),
        { m with noCompression := noComp, payloads := ainsert m.payloads key payload })

/-- `Marshal` from `amp.go`: marshal with no compression capability. -/
def Marshal (jm : MsgHeader → List Nat) (fc : List Nat → List Nat) (m : MsgSt) :
    List Nat × Bool × MsgSt :=
  marshal jm fc CompressionNone m

/-- `MarshalDeflate` from `amp.go`: marshal with deflate capability. -/
def MarshalDeflate (jm : MsgHeader → List Nat) (fc : List Nat → List Nat) (m : MsgSt) :
    List Nat × Bool × MsgSt :=
  marshal jm fc CompressionDeflate m

/-- `bytes.SplitN(buf, separtor, 2)`: split at the first separator byte.
`none` when the separator does not occur. -/
def splitAtSep : List Nat → Option (List Nat × List Nat)
  | [] => none
  | x :: rest =>
      if x = separtorByte then some ([], rest)
      else (splitAtSep rest).map (fun p => (x :: p.1, p.2))

/-- `Parse` from `amp.go`: split the buffer at the first separator byte,
JSON-decode the first part as the header (decoder `ju` is the
`encoding/json` parameter, `none` on malformed header, in which case
`Parse` returns `none`), keep the remainder as the body (empty when the
separator is absent, as Go leaves `m.body` nil). -/
def Parse (ju : List Nat → Option MsgHeader) (buf : List Nat) :
    Option (MsgHeader × List Nat) :=
  match splitAtSep buf with
  | some (hdr, rest) => (ju hdr).map (fun h => (h, rest))
  | none => (ju buf).map (fun h => (h, []))

end Amp

namespace Broker

/-- `Message` from the broker package: an event name and opaque data bytes. -/
structure Message where
  event : String
  data : List Nat
deriving DecidableEq, Repr

/-- `NewMessage` from the broker package. -/
def NewMessage (event : String) (data : List Nat) : Message :=
  { event := event, data := data }

/-- Modelled from the spec: the ring buffer state store's `put`
(`newRingBuffer`'s implementation file is not among the sources).
Spec §4.2: "`put` appends and, if at capacity, evicts the oldest entry
(pure FIFO overwrite)". The buffer is the list of retained messages,
oldest first. -/
def ringPut (cap : Nat) (store : List Message) (msg : Message) : List Message :=
  let s := store ++ [msg]
  if cap < s.length then s.drop (s.length - cap) else s

/-- One delivery into a subscriber channel: `true` tags a backlog message
(written by `emit`), `false` tags a live diff (written by `diff`). -/
abbrev Delivery := Bool × Message

/-- State of one `Broker` together with the observable history of its
subscriber channels. Channels are identified by `Nat`.

* `store`/`cap`: the ring-buffer state store (modelled from the spec,
  see `ringPut`), oldest first;
* `subFlag ch`: the `subscribers map[chan]bool` — `none` when the channel
  is not in the map, `some b` when present with value `b` (`sentFull`);
* `pending ch`: the `Subscribe` background task for `ch` has not yet run
  (the channel is waiting for the backlog, not yet in the map);
* `delivered ch`: every message written into channel `ch`, in order,
  tagged backlog/diff;
* `closedCh ch`: `close(ch)` has happened;
* `known ch`: `ch` was returned by some `Subscribe` call (channel
  identities are never reused, as Go channels are distinct objects);
* `updated`: the broker's `updated` timestamp (`time.Time` as `Int`). -/
structure Sys where
  cap : Nat
  store : List Message
  subFlag : Nat → Option Bool
  pending : Nat → Bool
  delivered : Nat → List Delivery
  closedCh : Nat → Bool
  known : Nat → Bool
  updated : Int

/-- The observable actions on one broker. `subStart ch` is the call to
`Subscribe` returning channel `ch`; `subFinish ch` is its background task
running to completion (`waitTouch`, then `emit`, then `setSubscriber`),
enabled once the store has a message; `unsub` is `Unsubscribe`;
`pubFull`/`pubDiff` are `full` (with the current time) and `diff`. -/
inductive Act where
  | pubFull (msg : Message) (now : Int)
  | pubDiff (msg : Message)
  | subStart (ch : Nat)
  | subFinish (ch : Nat)
  | unsub (ch : Nat)

/-- One step of the broker, translated from the broker package:

* `pubFull` is `Broker.full`: `state.put(msg)` then `updated = time.Now()`
  under the write lock;
* `pubDiff` is `Broker.diff`: send `msg` to every channel whose map value
  is `true`;
* `subStart` is `Broker.Subscribe` up to returning the fresh channel
  (the background task not yet run);
* `subFinish` is the background task: requires at least one stored
  message (`waitTouch`), appends the whole store to the channel oldest
  first (`emit`), then puts the channel in the map with value `true`
  (`setSubscriber`);
* `unsub` is `Broker.Unsubscribe`: when the channel is in the map, delete
  it and close the channel; otherwise do nothing. -/
def step (s : Sys) : Act → Sys
  | .pubFull msg now => { s with store := ringPut s.cap s.store msg, updated := now }
  | .pubDiff msg =>
      { s with delivered := fun c =>
          if s.subFlag c = some true then s.delivered c ++ [(false, msg)] else s.delivered c }
  | .subStart ch =>
      if s.known ch then s
      else { s with known := fun c => if c = ch then true else s.known c,
                    pending := fun c => if c = ch then true else s.pending c }
  | .subFinish ch =>
      if s.pending ch = true ∧ s.store ≠ [] then
        { s with
            delivered := fun c =>
              if c = ch then s.delivered c ++ s.store.map (fun m => (true, m))
              else s.delivered c,
            subFlag := fun c => if c = ch then some true else s.subFlag c,
            pending := fun c => if c = ch then false else s.pending c }
      else s
  | .unsub ch =>
      match s.subFlag ch with
      | some _ =>
          { s with subFlag := fun c => if c = ch then none else s.subFlag c,
                   closedCh := fun c => if c = ch then true else s.closedCh c }
      | none => s

/-- A fresh broker for a topic: empty store of capacity `cap`, no
subscribers, created at time `t0` (`newBroker` + `newRingBuffer`). -/
def initSys (cap : Nat) (t0 : Int) : Sys :=
  { cap := cap, store := [], subFlag := fun _ => none, pending := fun _ => false,
    delivered := fun _ => [], closedCh := fun _ => false, known := fun _ => false,
    updated := t0 }

/-- Run a sequence of actions from a state. -/
def runFrom (s : Sys) (acts : List Act) : Sys :=
  acts.foldl step s

/-- Run a sequence of actions on a fresh broker created at time 0. -/
def run (cap : Nat) (acts : List Act) : Sys :=
  runFrom (initSys cap 0) acts

/-- A channel's delivery history never shows a backlog message after a
diff: once a diff has been written, everything after it is a diff. -/
def noBacklogAfterDiff : List Delivery → Bool
  | [] => true
  | d :: r => if d.1 then noBacklogAfterDiff r else r.all (fun p => p.1 = false)

theorem nbad_append_diff (l : List Delivery) (m : Message)
    (h : noBacklogAfterDiff l = true) :
    noBacklogAfterDiff (l ++ [(false, m)]) = true := by
  induction l with
  | nil => simp [noBacklogAfterDiff]
  | cons d r ih =>
      by_cases hb : d.1 = true
      · simp only [List.cons_append, noBacklogAfterDiff, hb, if_true] at h ⊢
        exact ih h
      · have hb' : d.1 = false := by simpa using hb
        simp only [List.cons_append, noBacklogAfterDiff, hb', Bool.false_eq_true, if_false,
          List.all_append] at h ⊢
        rw [List.append_eq, List.all_append]
        simp [h]
        intro b hbm
        have hx := List.all_eq_true.mp h _ hbm
        simp at hx

theorem nbad_map_backlog (st : List Message) :
    noBacklogAfterDiff (st.map (fun m => (true, m))) = true := by
  induction st with
  | nil => simp [noBacklogAfterDiff]
  | cons m r ih => simpa [noBacklogAfterDiff] using ih

/-- The broker invariant, over all channels:

1. a channel still waiting for its backlog is not in the subscriber map;
2. a channel still waiting for its backlog has received nothing;
3. no channel's history shows a backlog message after a diff;
4. a closed channel is out of the map and not waiting;
5. a channel never returned by `Subscribe` has no history at all. -/
structure Inv (s : Sys) : Prop where
  pend_flag : ∀ ch, s.pending ch = true → s.subFlag ch = none
  pend_del : ∀ ch, s.pending ch = true → s.delivered ch = []
  del_ord : ∀ ch, noBacklogAfterDiff (s.delivered ch) = true
  closed_out : ∀ ch, s.closedCh ch = true → s.subFlag ch = none ∧ s.pending ch = false
  fresh : ∀ ch, s.known ch = false →
    s.delivered ch = [] ∧ s.subFlag ch = none ∧ s.pending ch = false ∧ s.closedCh ch = false

theorem inv_init (cap : Nat) (t0 : Int) : Inv (initSys cap t0) := by
  constructor <;> intro ch <;> simp [initSys, noBacklogAfterDiff]

theorem inv_step (s : Sys) (a : Act) (h : Inv s) : Inv (step s a) := by
  cases a with
  | pubFull msg now =>
      exact ⟨h.pend_flag, h.pend_del, h.del_ord, h.closed_out, h.fresh⟩
  | pubDiff msg =>
      refine ⟨h.pend_flag, ?_, ?_, h.closed_out, ?_⟩
      · intro ch hp
        simp only [step]
        rw [h.pend_flag ch hp]
        simp [h.pend_del ch hp]
      · intro ch
        simp only [step]
        by_cases hf : s.subFlag ch = some true
        · simp only [hf, if_pos rfl]
          exact nbad_append_diff _ _ (h.del_ord ch)
        · rw [if_neg hf]
          exact h.del_ord ch
      · intro ch hk
        obtain ⟨hd, hf, hp, hc⟩ := h.fresh ch hk
        simp only [step]
        rw [hf]
        simp [hd, hf, hp, hc]
  | subStart ch =>
      by_cases hk : s.known ch
      · simpa [step, hk] using h
      · simp only [step, hk, if_false, Bool.false_eq_true]
        obtain ⟨hd0, hf0, hp0, hc0⟩ := h.fresh ch (by simpa using hk)
        refine ⟨?_, ?_, h.del_ord, ?_, ?_⟩
        · intro c hp
          by_cases hc : c = ch
          · subst hc; exact hf0
          · simp only [hc, if_false] at hp
            exact h.pend_flag c hp
        · intro c hp
          by_cases hc : c = ch
          · subst hc; exact hd0
          · simp only [hc, if_false] at hp
            exact h.pend_del c hp
        · intro c hcl
          by_cases hc : c = ch
          · subst hc; rw [hc0] at hcl; cases hcl
          · simp only [hc, if_false]
            exact h.closed_out c hcl
        · intro c hkc
          by_cases hc : c = ch
          · subst hc; simp at hkc
          · simp only [hc, if_false] at hkc ⊢
            exact h.fresh c hkc
  | subFinish ch =>
      by_cases hg : s.pending ch = true ∧ s.store ≠ []
      · simp only [step, if_pos hg]
        refine ⟨?_, ?_, ?_, ?_, ?_⟩
        · intro c hp
          by_cases hc : c = ch
          · simp [hc] at hp
          · simp only [hc, if_false] at hp ⊢
            exact h.pend_flag c hp
        · intro c hp
          by_cases hc : c = ch
          · simp [hc] at hp
          · simp only [hc, if_false] at hp ⊢
            exact h.pend_del c hp
        · intro c
          by_cases hc : c = ch
          · subst hc
            simp only [if_pos rfl]
            rw [h.pend_del c hg.1]
            simpa using nbad_map_backlog s.store
          · simp only [hc, if_false]
            exact h.del_ord c
        · intro c hcl
          by_cases hc : c = ch
          · subst hc
            have := (h.closed_out c hcl).2
            rw [this] at hg
            exact absurd hg.1 (by simp)
          · simp only [hc, if_false]
            exact h.closed_out c hcl
        · intro c hkc
          by_cases hc : c = ch
          · subst hc
            have := (h.fresh c hkc).2.2.1
            rw [this] at hg
            exact absurd hg.1 (by simp)
          · simp only [hc, if_false]
            exact h.fresh c hkc
      · simpa [step, if_neg hg] using h
  | unsub ch =>
      cases hf : s.subFlag ch with
      | none => simpa [step, hf] using h
      | some b =>
          simp only [step, hf]
          refine ⟨?_, h.pend_del, h.del_ord, ?_, ?_⟩
          · intro c hp
            by_cases hc : c = ch
            · simp [hc]
            · simp only [hc, if_false]
              exact h.pend_flag c hp
          · intro c hcl
            by_cases hc : c = ch
            · subst hc
              refine ⟨by simp, ?_⟩
              by_cases hp : s.pending c = true
              · rw [h.pend_flag c hp] at hf; cases hf
              · simpa using hp
            · simp only [hc, if_false] at hcl ⊢
              exact h.closed_out c hcl
          · intro c hkc
            by_cases hc : c = ch
            · subst hc
              rw [(h.fresh c hkc).2.1] at hf; cases hf
            · simp only [hc, if_false]
              exact h.fresh c hkc

theorem inv_runFrom (s : Sys) (acts : List Act) (h : Inv s) : Inv (runFrom s acts) := by
  induction acts generalizing s with
  | nil => simpa [runFrom] using h
  | cons a rest ih =>
      have : runFrom s (a :: rest) = runFrom (step s a) rest := rfl
      rw [this]
      exact ih _ (inv_step s a h)

theorem inv_run (cap : Nat) (acts : List Act) : Inv (run cap acts) :=
  inv_runFrom _ _ (inv_init cap 0)

/-- A channel that is out of the subscriber map, not waiting, and already
handed out keeps that status under any single action, and nothing more is
ever written to it, nor does its closed flag change. -/
theorem step_frozen (s : Sys) (ch : Nat) (a : Act)
    (hf : s.subFlag ch = none) (hp : s.pending ch = false) (hk : s.known ch = true) :
    (step s a).subFlag ch = none ∧ (step s a).pending ch = false ∧
    (step s a).known ch = true ∧ (step s a).delivered ch = s.delivered ch ∧
    (step s a).closedCh ch = s.closedCh ch := by
  cases a with
  | pubFull msg now => exact ⟨hf, hp, hk, rfl, rfl⟩
  | pubDiff msg =>
      refine ⟨hf, hp, hk, ?_, rfl⟩
      simp [step, hf]
  | subStart ch' =>
      by_cases hc : ch' = ch
      · subst hc
        simp [step, hk, hf, hp]
      · have hc' : ¬(ch = ch') := fun h => hc h.symm
        by_cases hkn : s.known ch'
        · simp [step, hkn, hf, hp, hk]
        · simp [step, hkn, hc', hf, hp, hk]
  | subFinish ch' =>
      by_cases hc : ch' = ch
      · subst hc
        simp [step, hp, hf, hk]
      · have hc' : ¬(ch = ch') := fun h => hc h.symm
        by_cases hg : s.pending ch' = true ∧ s.store ≠ []
        · simp [step, hg, hc', hf, hp, hk]
        · simp [step, hg, hf, hp, hk]
  | unsub ch' =>
      by_cases hc : ch' = ch
      · subst hc
        simp [step, hf, hp, hk]
      · have hc' : ¬(ch = ch') := fun h => hc h.symm
        cases hff : s.subFlag ch' with
        | none => simp [step, hff, hf, hp, hk]
        | some b => simp [step, hff, hc', hf, hp, hk]

/-- `step_frozen` extended over any sequence of further actions. -/
theorem runFrom_frozen (ch : Nat) (acts : List Act) : ∀ (s : Sys),
    s.subFlag ch = none → s.pending ch = false → s.known ch = true →
    (runFrom s acts).subFlag ch = none ∧ (runFrom s acts).pending ch = false ∧
    (runFrom s acts).known ch = true ∧
    (runFrom s acts).delivered ch = s.delivered ch ∧
    (runFrom s acts).closedCh ch = s.closedCh ch := by
  induction acts with
  | nil => intro s hf hp hk; exact ⟨hf, hp, hk, rfl, rfl⟩
  | cons a rest ih =>
      intro s hf hp hk
      obtain ⟨hf1, hp1, hk1, hd1, hc1⟩ := step_frozen s ch a hf hp hk
      obtain ⟨hf2, hp2, hk2, hd2, hc2⟩ := ih (step s a) hf1 hp1 hk1
      exact ⟨hf2, hp2, hk2, hd2.trans hd1, hc2.trans hc1⟩

/-- The retained suffix of the last `n` elements, oldest first. -/
def lastN (n : Nat) (l : List Message) : List Message :=
  l.drop (l.length - n)

theorem ringPut_eq_lastN (cap : Nat) (store : List Message) (msg : Message) :
    ringPut cap store msg = lastN cap (store ++ [msg]) := by
  unfold ringPut lastN
  by_cases hlt : cap < (store ++ [msg]).length
  · rw [if_pos hlt]
  · rw [if_neg hlt]
    have h0 : (store ++ [msg]).length - cap = 0 :=
      Nat.sub_eq_zero_of_le (Nat.le_of_not_lt hlt)
    rw [h0, List.drop_zero]

theorem ringPut_length_le (cap : Nat) (store : List Message) (msg : Message)
    (h : store.length ≤ cap) : (ringPut cap store msg).length ≤ cap := by
  rw [ringPut_eq_lastN cap store msg]
  unfold lastN
  rw [List.length_drop]
  omega

theorem lastN_append_lastN (cap : Nat) (l r : List Message) :
    lastN cap (lastN cap l ++ r) = lastN cap (l ++ r) := by
  unfold lastN
  have hk : l.length - cap ≤ l.length := Nat.sub_le _ _
  rw [List.length_append, List.length_drop, ← List.drop_append_of_le_length hk,
    List.drop_drop, List.length_append]
  congr 1
  omega

/-- Modelled from the spec: after any sequence of `put`s onto a ring
buffer (starting from contained contents of length at most the capacity),
the buffer holds exactly the last `cap` items of everything ever stored,
oldest first. -/
theorem foldl_ringPut (cap : Nat) (msgs : List Message) : ∀ (store : List Message),
    store.length ≤ cap →
    List.foldl (ringPut cap) store msgs = lastN cap (store ++ msgs) := by
  induction msgs with
  | nil =>
      intro store h
      unfold lastN
      have h0 : store.length - cap = 0 := by omega
      simp [h0]
  | cons msg rest ih =>
      intro store h
      have hstep : List.foldl (ringPut cap) store (msg :: rest) =
          List.foldl (ringPut cap) (ringPut cap store msg) rest := rfl
      rw [hstep, ih _ (ringPut_length_le cap store msg h),
        ringPut_eq_lastN cap store msg, lastN_append_lastN]
      congr 1
      simp

/-- A broker as seen by the registry: its topic, its ring-buffer capacity
(1 for full/diff brokers, `size` for buffered ones — the only observable
difference between the two constructors), its `updated` timestamp and its
subscriber map (channel → `sentFull`). -/
structure RBroker where
  topic : String
  cap : Nat
  updated : Int
  subscribers : List (Nat × Bool)
deriving DecidableEq, Repr

/-- `newBroker`: empty subscriber map, `updated = time.Now()`; the caller
then sets the ring-buffer state (capacity `cap`). -/
def newRBroker (topic : String) (now : Int) (cap : Nat) : RBroker :=
  { topic := topic, cap := cap, updated := now, subscribers := [] }

/-- `NewFullDiffBroker`: ring capacity 1. -/
def NewFullDiffBroker (topic : String) (now : Int) : RBroker :=
  newRBroker topic now 1

/-- `NewBufferedBroker`: ring capacity `size`. -/
def NewBufferedBroker (topic : String) (now : Int) (size : Nat) : RBroker :=
  newRBroker topic now size

/-- `defaultSize = 100`: default ring size for buffered brokers. -/
def defaultSize : Nat := 100

/-- The process-wide `brokers map[string]*Broker`, as an association list
(keys unique in any state the Go map can be in). -/
abbrev Registry := List (String × RBroker)

/-- Go map read `brokers[topic]`. -/
def rlookup : Registry → String → Option RBroker
  | [], _ => none
  | (k, v) :: rest, t => if k = t then some v else rlookup rest t

/-- Go map write `brokers[topic] = b`: overwrite the entry when present,
append otherwise. -/
def rinsert : Registry → String → RBroker → Registry
  | [], t, b => [(t, b)]
  | (k, v) :: rest, t, b => if k = t then (t, b) :: rest else (k, v) :: rinsert rest t b

/-- `Broker.expired`: `b.updated.Before(time.Now().Add(-ttl))`. -/
def expired (ttl now : Int) (b : RBroker) : Bool :=
  b.updated < now + (-ttl)

/-- `FindBroker`: pure lookup, returning the broker and the `ok` flag. -/
def FindBroker (reg : Registry) (topic : String) : Option RBroker × Bool :=
  (rlookup reg topic, (rlookup reg topic).isSome)

/-- `createFullDiffBroker`: under the registry write lock, construct a new
full/diff broker and store it — with no re-check of the map. -/
def createFullDiffBroker (topic : String) (now : Int) (reg : Registry) :
    RBroker × Registry :=
  let b := NewFullDiffBroker topic now
  (b, rinsert reg topic b)

/-- `createBufferedBroker`: under the registry write lock, construct a new
buffered broker and store it — with no re-check of the map. -/
def createBufferedBroker (topic : String) (now : Int) (size : Nat) (reg : Registry) :
    RBroker × Registry :=
  let b := NewBufferedBroker topic now size
  (b, rinsert reg topic b)

/-- `GetFullDiffBroker`: return the existing broker for the topic, or take
the creation path on a lookup miss. -/
def GetFullDiffBroker (topic : String) (now : Int) (reg : Registry) :
    RBroker × Registry :=
  match (FindBroker reg topic).1 with
  | some b => (b, reg)
  | none => createFullDiffBroker topic now reg

/-- `GetBufferedBroker`: return the existing broker for the topic, or take
the creation path (with `defaultSize`) on a lookup miss. -/
def GetBufferedBroker (topic : String) (now : Int) (reg : Registry) :
    RBroker × Registry :=
  match (FindBroker reg topic).1 with
  | some b => (b, reg)
  | none => createBufferedBroker topic now defaultSize reg

/-- `CleanUpBrokers`: under the registry write lock, drop every expired
broker from the map and run `removeSubscribers` on it, which snapshots
its subscriber map and `Unsubscribe`s each channel — every channel
present is deleted and closed. Returns the swept registry and the list
of channels that got closed. -/
def CleanUpBrokers (ttl now : Int) (reg : Registry) : Registry × List Nat :=
  (reg.filter (fun p => !expired ttl now p.2),
   ((reg.filter (fun p => expired ttl now p.2)).map
     (fun p => p.2.subscribers.map Prod.fst)).flatten)

theorem rlookup_mem (reg : Registry) (t : String) (b : RBroker)
    (h : rlookup reg t = some b) : (t, b) ∈ reg := by
  induction reg with
  | nil => cases h
  | cons p rest ih =>
      obtain ⟨p1, p2⟩ := p
      simp only [rlookup] at h
      by_cases hp : p1 = t
      · subst hp
        rw [if_pos rfl] at h
        have hb : p2 = b := Option.some.inj h
        subst hb
        exact List.mem_cons_self _ _
      · rw [if_neg hp] at h
        exact List.mem_cons_of_mem _ (ih h)

theorem rlookup_eq_none_of_no_key (reg : Registry) (t : String)
    (h : ∀ p ∈ reg, p.1 ≠ t) : rlookup reg t = none := by
  induction reg with
  | nil => rfl
  | cons p rest ih =>
      obtain ⟨p1, p2⟩ := p
      have hp : p1 ≠ t := h (p1, p2) (List.mem_cons_self _ _)
      simp only [rlookup]
      rw [if_neg hp]
      exact ih (fun q hq => h q (List.mem_cons_of_mem _ hq))

theorem rlookup_unique (reg : Registry) (t : String) (b : RBroker)
    (hnd : (reg.map Prod.fst).Nodup) (h : rlookup reg t = some b) :
    ∀ p ∈ reg, p.1 = t → p.2 = b := by
  induction reg with
  | nil => intro p hp; cases hp
  | cons q rest ih =>
      intro p hp hpt
      obtain ⟨q1, q2⟩ := q
      simp only [List.map_cons, List.nodup_cons] at hnd
      simp only [rlookup] at h
      rcases List.mem_cons.mp hp with hp1 | hp1
      · subst hp1
        have hpt' : q1 = t := hpt
        rw [if_pos hpt'] at h
        exact Option.some.inj h
      · by_cases hq : q1 = t
        · exfalso
          apply hnd.1
          have hmem : p.1 ∈ rest.map Prod.fst := List.mem_map_of_mem Prod.fst hp1
          rw [hpt, ← hq] at hmem
          exact hmem
        · rw [if_neg hq] at h
          exact ih hnd.2 h p hp1 hpt

end Broker

namespace Broker

/-- `Unsubscribe` twice equals `Unsubscribe` once, on any broker state. -/
theorem step_unsub_idem (s : Sys) (ch : Nat) :
    step (step s (Act.unsub ch)) (Act.unsub ch) = step s (Act.unsub ch) := by
  cases hf : s.subFlag ch with
  | none => simp [step, hf]
  | some b => simp [step, hf]

end Broker

/-- C1: a diff published via `publishDiff` is written only to channels
flagged `receivingDiffs = true` in the subscriber map (channels whose
backlog emission has not completed are skipped), and consequently in
every reachable broker state every channel's delivery history has all
its backlog messages strictly before any diff. -/
theorem C1_diff_never_precedes_backlog (cap : Nat) (acts : List Broker.Act)
    (ch : Nat) (msg : Broker.Message) :
    ((Broker.step (Broker.run cap acts) (Broker.Act.pubDiff msg)).delivered ch =
      if (Broker.run cap acts).subFlag ch = some true
      then (Broker.run cap acts).delivered ch ++ [(false, msg)]
      else (Broker.run cap acts).delivered ch) ∧
    Broker.noBacklogAfterDiff ((Broker.run cap acts).delivered ch) = true := by
  exact ⟨rfl, (Broker.inv_run cap acts).del_ord ch⟩

/-- C9: `full` stores the message into the state store and refreshes
`updated` in the same atomic step, touching neither the subscriber map
nor the delivery histories, while `diff` leaves the state store,
`updated` and the subscriber map unchanged. -/
theorem C9_full_updates_diff_frames (s : Broker.Sys) (msg : Broker.Message) (now : Int) :
    (Broker.step s (Broker.Act.pubFull msg now)).store = Broker.ringPut s.cap s.store msg ∧
    (Broker.step s (Broker.Act.pubFull msg now)).updated = now ∧
    (Broker.step s (Broker.Act.pubFull msg now)).subFlag = s.subFlag ∧
    (Broker.step s (Broker.Act.pubFull msg now)).delivered = s.delivered ∧
    (Broker.step s (Broker.Act.pubDiff msg)).store = s.store ∧
    (Broker.step s (Broker.Act.pubDiff msg)).updated = s.updated ∧
    (Broker.step s (Broker.Act.pubDiff msg)).subFlag = s.subFlag :=
  ⟨rfl, rfl, rfl, rfl, rfl, rfl, rfl⟩

/-- C7: `Unsubscribe` is idempotent — the second call on the same channel
is a no-op, with no duplicate close — and once it has removed a channel
that was in the subscriber map, no later sequence of actions ever writes
to that channel again, while the channel stays closed. -/
theorem C7_unsubscribe_idempotent_terminal (cap : Nat) (acts : List Broker.Act)
    (ch : Nat) (b : Bool) (acts2 : List Broker.Act) :
    (Broker.step (Broker.step (Broker.run cap acts) (Broker.Act.unsub ch))
        (Broker.Act.unsub ch) =
      Broker.step (Broker.run cap acts) (Broker.Act.unsub ch)) ∧
    ((Broker.run cap acts).subFlag ch = some b →
      (Broker.runFrom (Broker.step (Broker.run cap acts) (Broker.Act.unsub ch))
          acts2).delivered ch = (Broker.run cap acts).delivered ch ∧
      (Broker.runFrom (Broker.step (Broker.run cap acts) (Broker.Act.unsub ch))
          acts2).closedCh ch = true) := by
  constructor
  · exact Broker.step_unsub_idem _ ch
  · intro hf
    set s := Broker.run cap acts with hs
    have hinv := Broker.inv_run cap acts
    have hp : s.pending ch = false := by
      by_cases h : s.pending ch = true
      · rw [hinv.pend_flag ch h] at hf; cases hf
      · simpa using h
    have hk : s.known ch = true := by
      by_cases h : s.known ch = false
      · rw [(hinv.fresh ch h).2.1] at hf; cases hf
      · simpa using h
    have h1 : (Broker.step s (Broker.Act.unsub ch)).subFlag ch = none := by
      simp [Broker.step, hf]
    have h2 : (Broker.step s (Broker.Act.unsub ch)).pending ch = false := by
      simp [Broker.step, hf, hp]
    have h3 : (Broker.step s (Broker.Act.unsub ch)).known ch = true := by
      simp [Broker.step, hf, hk]
    have h4 : (Broker.step s (Broker.Act.unsub ch)).delivered ch = s.delivered ch := by
      simp [Broker.step, hf]
    have h5 : (Broker.step s (Broker.Act.unsub ch)).closedCh ch = true := by
      simp [Broker.step, hf]
    obtain ⟨_, _, _, hd, hc⟩ := Broker.runFrom_frozen ch acts2 _ h1 h2 h3
    exact ⟨hd.trans h4, hc.trans h5⟩

/-- The concrete broker state used by the C7 witness: one publish, then
channel 0 subscribes and completes its backlog handshake. -/
def demoRun7 : Broker.Sys :=
  Broker.run 1 [Broker.Act.pubFull ⟨"e", [1]⟩ 0, Broker.Act.subStart 0,
    Broker.Act.subFinish 0]

/-- C7 witness: on `demoRun7`, channel 0 is in the subscriber map;
unsubscribing twice equals unsubscribing once, and after the removal a
further diff publish writes nothing more to channel 0, which stays
closed. -/
theorem C7_witness :
    demoRun7.subFlag 0 = some true ∧
    (Broker.step (Broker.step demoRun7 (Broker.Act.unsub 0)) (Broker.Act.unsub 0) =
      Broker.step demoRun7 (Broker.Act.unsub 0)) ∧
    ((Broker.runFrom (Broker.step demoRun7 (Broker.Act.unsub 0))
        [Broker.Act.pubDiff ⟨"e", [2]⟩]).delivered 0 = demoRun7.delivered 0 ∧
      (Broker.runFrom (Broker.step demoRun7 (Broker.Act.unsub 0))
        [Broker.Act.pubDiff ⟨"e", [2]⟩]).closedCh 0 = true) :=
  have h := C7_unsubscribe_idempotent_terminal 1
    [Broker.Act.pubFull ⟨"e", [1]⟩ 0, Broker.Act.subStart 0, Broker.Act.subFinish 0]
    0 true [Broker.Act.pubDiff ⟨"e", [2]⟩]
  ⟨rfl, h.1, h.2 rfl⟩

/-- C8 counterexample: channel 0 has subscribed but its backlog has not
been emitted yet (no message was ever published, so the handshake is
still waiting). `Unsubscribe` on it is a no-op: the channel is NOT
closed, and the state is unchanged — `Closed` is not reachable from the
`WaitingForBacklog` phase via `unsubscribe`. -/
theorem C8_counterexample :
    (Broker.run 1 [Broker.Act.subStart 0]).pending 0 = true ∧
    (Broker.step (Broker.run 1 [Broker.Act.subStart 0]) (Broker.Act.unsub 0)).closedCh 0
      = false ∧
    Broker.step (Broker.run 1 [Broker.Act.subStart 0]) (Broker.Act.unsub 0)
      = Broker.run 1 [Broker.Act.subStart 0] :=
  ⟨rfl, rfl, rfl⟩

/-- C8 amended: `Unsubscribe` closes a channel only from the
`ReceivingDiffs` phase (present in the subscriber map); on a channel
still in `WaitingForBacklog` it is a no-op that does not close the
channel. When it does close a channel, closing is terminal: no later
action writes to the channel, and it stays closed. -/
theorem C8_closed_only_from_receiving (cap : Nat) (acts : List Broker.Act)
    (ch : Nat) (b : Bool) (acts2 : List Broker.Act) :
    ((Broker.run cap acts).pending ch = true →
      Broker.step (Broker.run cap acts) (Broker.Act.unsub ch) = Broker.run cap acts) ∧
    ((Broker.run cap acts).subFlag ch = some b →
      (Broker.step (Broker.run cap acts) (Broker.Act.unsub ch)).closedCh ch = true ∧
      (Broker.runFrom (Broker.step (Broker.run cap acts) (Broker.Act.unsub ch))
          acts2).delivered ch = (Broker.run cap acts).delivered ch ∧
      (Broker.runFrom (Broker.step (Broker.run cap acts) (Broker.Act.unsub ch))
          acts2).closedCh ch = true) := by
  have hinv := Broker.inv_run cap acts
  constructor
  · intro hp
    simp [Broker.step, hinv.pend_flag ch hp]
  · intro hf
    have hp : (Broker.run cap acts).pending ch = false := by
      by_cases h : (Broker.run cap acts).pending ch = true
      · rw [hinv.pend_flag ch h] at hf; cases hf
      · simpa using h
    have hk : (Broker.run cap acts).known ch = true := by
      by_cases h : (Broker.run cap acts).known ch = false
      · rw [(hinv.fresh ch h).2.1] at hf; cases hf
      · simpa using h
    have h1 : (Broker.step (Broker.run cap acts) (Broker.Act.unsub ch)).subFlag ch = none := by
      simp [Broker.step, hf]
    have h2 : (Broker.step (Broker.run cap acts) (Broker.Act.unsub ch)).pending ch = false := by
      simp [Broker.step, hf, hp]
    have h3 : (Broker.step (Broker.run cap acts) (Broker.Act.unsub ch)).known ch = true := by
      simp [Broker.step, hf, hk]
    have h4 : (Broker.step (Broker.run cap acts) (Broker.Act.unsub ch)).delivered ch
        = (Broker.run cap acts).delivered ch := by
      simp [Broker.step, hf]
    have h5 : (Broker.step (Broker.run cap acts) (Broker.Act.unsub ch)).closedCh ch = true := by
      simp [Broker.step, hf]
    obtain ⟨_, _, _, hd, hc⟩ := Broker.runFrom_frozen ch acts2 _ h1 h2 h3
    exact ⟨h5, hd.trans h4, hc.trans h5⟩

/-- C8 witness: at a waiting channel `Unsubscribe` leaves the state
unchanged, and at a channel in the subscriber map it closes terminally
with nothing delivered afterwards. -/
theorem C8_witness :
    (Broker.run 2 [Broker.Act.subStart 4]).pending 4 = true ∧
    (Broker.step (Broker.run 2 [Broker.Act.subStart 4]) (Broker.Act.unsub 4)
      = Broker.run 2 [Broker.Act.subStart 4]) ∧
    (Broker.run 2 [Broker.Act.pubFull ⟨"x", [9]⟩ 3, Broker.Act.subStart 4,
      Broker.Act.subFinish 4]).subFlag 4 = some true ∧
    ((Broker.step (Broker.run 2 [Broker.Act.pubFull ⟨"x", [9]⟩ 3, Broker.Act.subStart 4,
        Broker.Act.subFinish 4]) (Broker.Act.unsub 4)).closedCh 4 = true ∧
      (Broker.runFrom (Broker.step (Broker.run 2 [Broker.Act.pubFull ⟨"x", [9]⟩ 3,
          Broker.Act.subStart 4, Broker.Act.subFinish 4]) (Broker.Act.unsub 4))
          [Broker.Act.pubDiff ⟨"x", [8]⟩]).delivered 4 =
        (Broker.run 2 [Broker.Act.pubFull ⟨"x", [9]⟩ 3, Broker.Act.subStart 4,
          Broker.Act.subFinish 4]).delivered 4 ∧
      (Broker.runFrom (Broker.step (Broker.run 2 [Broker.Act.pubFull ⟨"x", [9]⟩ 3,
          Broker.Act.subStart 4, Broker.Act.subFinish 4]) (Broker.Act.unsub 4))
          [Broker.Act.pubDiff ⟨"x", [8]⟩]).closedCh 4 = true) :=
  ⟨rfl,
   (C8_closed_only_from_receiving 2 [Broker.Act.subStart 4] 4 true []).1 rfl,
   rfl,
   (C8_closed_only_from_receiving 2 [Broker.Act.pubFull ⟨"x", [9]⟩ 3, Broker.Act.subStart 4,
      Broker.Act.subFinish 4] 4 true [Broker.Act.pubDiff ⟨"x", [8]⟩]).2 rfl⟩

/-- C2: on a buffered broker of ring capacity `K`, after storing the
messages `msgs` with `msgs.length ≥ K` the ring holds exactly the last
`K` of them, oldest first (so that is precisely the backlog a new
subscriber's `emit` receives); and in the concrete `Stream`-3-times
scenario on a size-2 broker with no subscriber, a subsequent subscribe
delivers exactly the 2nd and 3rd messages, in that order, as backlog.
(The ring buffer itself is modelled from the spec; its implementation
file is not among the sources.) -/
theorem C2_buffered_backlog_last_K (K : Nat) (msgs : List Broker.Message)
    (hM : K ≤ msgs.length) :
    List.foldl (Broker.ringPut K) [] msgs = msgs.drop (msgs.length - K) ∧
    (List.foldl (Broker.ringPut K) [] msgs).length = K ∧
    (Broker.run 2 [Broker.Act.pubFull ⟨"line", [1]⟩ 1, Broker.Act.pubDiff ⟨"line", [1]⟩,
        Broker.Act.pubFull ⟨"line", [2]⟩ 2, Broker.Act.pubDiff ⟨"line", [2]⟩,
        Broker.Act.pubFull ⟨"line", [3]⟩ 3, Broker.Act.pubDiff ⟨"line", [3]⟩,
        Broker.Act.subStart 0, Broker.Act.subFinish 0]).delivered 0 =
      [(true, ⟨"line", [2]⟩), (true, ⟨"line", [3]⟩)] := by
  have h1 : List.foldl (Broker.ringPut K) [] msgs = msgs.drop (msgs.length - K) := by
    have := Broker.foldl_ringPut K msgs [] (by simp)
    simpa [Broker.lastN] using this
  refine ⟨h1, ?_, rfl⟩
  rw [h1, List.length_drop]
  omega

/-- C2 witness: three messages through a capacity-2 ring keep exactly the
last two, and the scenario backlog is the 2nd and 3rd messages in order. -/
theorem C2_witness :
    (2 ≤ ([⟨"line", [1]⟩, ⟨"line", [2]⟩, ⟨"line", [3]⟩] : List Broker.Message).length) ∧
    List.foldl (Broker.ringPut 2) []
        ([⟨"line", [1]⟩, ⟨"line", [2]⟩, ⟨"line", [3]⟩] : List Broker.Message) =
      [⟨"line", [2]⟩, ⟨"line", [3]⟩] ∧
    (Broker.run 2 [Broker.Act.pubFull ⟨"line", [1]⟩ 1, Broker.Act.pubDiff ⟨"line", [1]⟩,
        Broker.Act.pubFull ⟨"line", [2]⟩ 2, Broker.Act.pubDiff ⟨"line", [2]⟩,
        Broker.Act.pubFull ⟨"line", [3]⟩ 3, Broker.Act.pubDiff ⟨"line", [3]⟩,
        Broker.Act.subStart 0, Broker.Act.subFinish 0]).delivered 0 =
      [(true, ⟨"line", [2]⟩), (true, ⟨"line", [3]⟩)] :=
  have h := C2_buffered_backlog_last_K 2
    ([⟨"line", [1]⟩, ⟨"line", [2]⟩, ⟨"line", [3]⟩] : List Broker.Message) (by decide)
  ⟨by decide, h.1, h.2.2⟩

/-- C5: a broker whose `updated` timestamp (set at creation and refreshed
only by `full`) is older than `now - ttl` satisfies `expired`, and the
next `CleanUpBrokers` sweep removes it from the registry and closes every
channel in its subscriber map. (`hnd`: registry keys are unique, as they
are in the Go map.) -/
theorem C5_expired_swept_and_closed (ttl now : Int) (reg : Broker.Registry)
    (t : String) (b : Broker.RBroker)
    (hnd : (reg.map Prod.fst).Nodup)
    (hfound : Broker.rlookup reg t = some b)
    (hold : b.updated < now - ttl) :
    Broker.expired ttl now b = true ∧
    Broker.rlookup (Broker.CleanUpBrokers ttl now reg).1 t = none ∧
    ∀ ch ∈ b.subscribers.map Prod.fst, ch ∈ (Broker.CleanUpBrokers ttl now reg).2 := by
  have hexp : Broker.expired ttl now b = true := by
    simp only [Broker.expired, decide_eq_true_eq]
    omega
  refine ⟨hexp, ?_, ?_⟩
  · apply Broker.rlookup_eq_none_of_no_key
    intro p hp hpt
    have hmem := List.mem_filter.mp hp
    have hpb : p.2 = b := Broker.rlookup_unique reg t b hnd hfound p hmem.1 hpt
    rw [hpb, hexp] at hmem
    simp at hmem
  · intro ch hch
    have hmem : (t, b) ∈ reg := Broker.rlookup_mem reg t b hfound
    have hfil : (t, b) ∈ reg.filter (fun p => Broker.expired ttl now p.2) :=
      List.mem_filter.mpr ⟨hmem, hexp⟩
    simp only [Broker.CleanUpBrokers, List.mem_flatten]
    exact ⟨b.subscribers.map Prod.fst, List.mem_map_of_mem _ hfil, hch⟩

/-- C5 witness: a registry with one broker, last updated at time 0 with a
single subscriber channel 5, swept at time 100 with a ttl of 10: the
broker is expired, removed, and channel 5 is closed. -/
theorem C5_witness :
    Broker.expired 10 100 (Broker.RBroker.mk "t" 1 0 [(5, true)]) = true ∧
    Broker.rlookup
      (Broker.CleanUpBrokers 10 100 [("t", Broker.RBroker.mk "t" 1 0 [(5, true)])]).1 "t"
      = none ∧
    ∀ ch ∈ (Broker.RBroker.mk "t" 1 0 [(5, true)]).subscribers.map Prod.fst,
      ch ∈ (Broker.CleanUpBrokers 10 100 [("t", Broker.RBroker.mk "t" 1 0 [(5, true)])]).2 :=
  C5_expired_swept_and_closed 10 100 [("t", Broker.RBroker.mk "t" 1 0 [(5, true)])] "t"
    (Broker.RBroker.mk "t" 1 0 [(5, true)]) (by simp) rfl (by decide)

/-- C6 counterexample: the creation path does NOT re-check the map under
the write lock. Run on a registry state that already contains a broker
for topic "t" (as left by a concurrent insert between the caller's
lookup miss and the write-lock acquisition), `createFullDiffBroker`
constructs a fresh broker and overwrites the existing entry: afterwards
the entry for "t" is no longer the broker that was there. -/
theorem C6_counterexample :
    Broker.rlookup [("t", Broker.NewBufferedBroker "t" 0 100)] "t"
      = some (Broker.NewBufferedBroker "t" 0 100) ∧
    Broker.rlookup
      (Broker.createFullDiffBroker "t" 5 [("t", Broker.NewBufferedBroker "t" 0 100)]).2 "t"
      ≠ some (Broker.NewBufferedBroker "t" 0 100) := by
  constructor
  · rfl
  · decide

/-- C6 amended: the creation path performs no re-check — run on a
registry already containing the topic it constructs a new broker and
overwrites the entry (see the counterexample). What holds is the
sequential half of the claim: `GetFullDiffBroker` takes the creation
path only on a lookup miss, so on every registry state already
containing a broker for the topic it returns that existing broker and
leaves the registry unchanged. -/
theorem C6_get_returns_existing (topic : String) (now : Int) (reg : Broker.Registry)
    (b : Broker.RBroker) (h : Broker.rlookup reg topic = some b) :
    Broker.GetFullDiffBroker topic now reg = (b, reg) := by
  simp [Broker.GetFullDiffBroker, Broker.FindBroker, h]

/-- C6 witness: on a one-entry registry, `GetFullDiffBroker` returns the
existing broker and does not touch the registry. -/
theorem C6_witness :
    Broker.GetFullDiffBroker "t" 33 [("t", Broker.NewFullDiffBroker "t" 0)]
      = (Broker.NewFullDiffBroker "t" 0, [("t", Broker.NewFullDiffBroker "t" 0)]) :=
  C6_get_returns_existing "t" 33 [("t", Broker.NewFullDiffBroker "t" 0)]
    (Broker.NewFullDiffBroker "t" 0) rfl

/-- C10: registry lookup is blind to broker kind — on any registry state
already containing a broker for the topic, both `GetBufferedBroker` and
`GetFullDiffBroker` return that existing broker unchanged, whatever
capacity (kind) it was created with. -/
theorem C10_lookup_blind_to_kind (topic : String) (now now2 : Int)
    (reg : Broker.Registry) (b : Broker.RBroker)
    (h : Broker.rlookup reg topic = some b) :
    Broker.GetBufferedBroker topic now reg = (b, reg) ∧
    Broker.GetFullDiffBroker topic now2 reg = (b, reg) := by
  constructor
  · simp [Broker.GetBufferedBroker, Broker.FindBroker, h]
  · simp [Broker.GetFullDiffBroker, Broker.FindBroker, h]

/-- C10 witness: on a topic first created by the full/diff path
(capacity 1), `GetBufferedBroker` returns that same capacity-1 broker —
not a capacity-100 buffered one — and vice versa a buffered capacity-100
broker is returned unchanged by `GetFullDiffBroker`. -/
theorem C10_witness :
    (Broker.GetBufferedBroker "t" 7
        [("t", (Broker.createFullDiffBroker "t" 0 []).1)]
      = ((Broker.createFullDiffBroker "t" 0 []).1,
         [("t", (Broker.createFullDiffBroker "t" 0 []).1)])) ∧
    (Broker.createFullDiffBroker "t" 0 []).1.cap = 1 ∧
    (Broker.GetFullDiffBroker "u" 9
        [("u", (Broker.createBufferedBroker "u" 0 Broker.defaultSize []).1)]
      = ((Broker.createBufferedBroker "u" 0 Broker.defaultSize []).1,
         [("u", (Broker.createBufferedBroker "u" 0 Broker.defaultSize []).1)])) ∧
    (Broker.createBufferedBroker "u" 0 Broker.defaultSize []).1.cap = 100 :=
  ⟨(C10_lookup_blind_to_kind "t" 7 7 [("t", (Broker.createFullDiffBroker "t" 0 []).1)]
      (Broker.createFullDiffBroker "t" 0 []).1 rfl).1,
   rfl,
   (C10_lookup_blind_to_kind "u" 9 9
      [("u", (Broker.createBufferedBroker "u" 0 Broker.defaultSize []).1)]
      (Broker.createBufferedBroker "u" 0 Broker.defaultSize []).1 rfl).2,
   rfl⟩

namespace Amp

theorem splitAtSep_append (a b : List Nat) (ha : separtorByte ∉ a) :
    splitAtSep (a ++ separtorByte :: b) = some (a, b) := by
  induction a with
  | nil => simp [splitAtSep]
  | cons x rest ih =>
      have hx : ¬(x = separtorByte) := by
        intro hxx
        exact ha (by simp [hxx])
      have hrest : separtorByte ∉ rest := fun hm => ha (List.mem_cons_of_mem _ hm)
      simp only [List.cons_append, splitAtSep, hx, if_false]
      rw [List.append_eq, ih hrest]
      rfl

/-- Parsing an uncompressed payload recovers the header and the body. -/
theorem Parse_payloadBytes (jm : MsgHeader → List Nat) (ju : List Nat → Option MsgHeader)
    (m : MsgSt) (hju : ju (jm m.header) = some m.header)
    (hsep : separtorByte ∉ jm m.header) :
    Parse ju (payloadBytes jm m) = some (m.header, m.body) := by
  unfold Parse payloadBytes
  rw [List.append_assoc, List.singleton_append, splitAtSep_append _ _ hsep]
  simp [hju]

end Amp

/-- C3: for an envelope with a raw byte body, parsing the marshalled
payload — applying `Undeflate` first exactly when the marshal reported
compression — reproduces the header fields and the body bytes, both
without compression (`Marshal`) and with deflate requested
(`MarshalDeflate`). The Go `encoding/json` codec (`jm`/`ju`) and
`compress/flate` stream (`fc`/`fd`) are parameters, with their library
contracts as hypotheses: the decoder inverts the encoder, the encoded
header contains no separator byte, and inflating a sync-flush-trimmed
compressed stream after appending `00 00 ff ff` restores the input. -/
theorem C3_parse_marshal_roundtrip (jm : Amp.MsgHeader → List Nat)
    (ju : List Nat → Option Amp.MsgHeader) (fc fd : List Nat → List Nat)
    (h : Amp.MsgHeader) (body : List Nat)
    (hju : ju (jm h) = some h)
    (hsep : Amp.separtorByte ∉ jm h)
    (hfl1 : 4 < (fc (Amp.payloadBytes jm (Amp.MsgSt.mk h body false []))).length)
    (hfl2 : fd ((fc (Amp.payloadBytes jm (Amp.MsgSt.mk h body false []))).take
          ((fc (Amp.payloadBytes jm (Amp.MsgSt.mk h body false []))).length - 4)
        ++ [0x00, 0x00, 0xff, 0xff])
      = Amp.payloadBytes jm (Amp.MsgSt.mk h body false [])) :
    Amp.Parse ju (Amp.Marshal jm fc (Amp.MsgSt.mk h body false [])).1 = some (h, body) ∧
    Amp.Parse ju
      (if (Amp.MarshalDeflate jm fc (Amp.MsgSt.mk h body false [])).2.1
       then Amp.Undeflate fd (Amp.MarshalDeflate jm fc (Amp.MsgSt.mk h body false [])).1
       else (Amp.MarshalDeflate jm fc (Amp.MsgSt.mk h body false [])).1)
      = some (h, body) := by
  have hparse : Amp.Parse ju (Amp.payloadBytes jm (Amp.MsgSt.mk h body false []))
      = some (h, body) :=
    Amp.Parse_payloadBytes jm ju (Amp.MsgSt.mk h body false []) hju hsep
  constructor
  · by_cases hsmall :
      (Amp.payloadBytes jm (Amp.MsgSt.mk h body false [])).length < Amp.compressionLenLimit
    · simpa [Amp.Marshal, Amp.marshal, Amp.alookup, Amp.CompressionNone,
        Amp.CompressionDeflate, Amp.payloadKey, hsmall] using hparse
    · simpa [Amp.Marshal, Amp.marshal, Amp.alookup, Amp.CompressionNone,
        Amp.CompressionDeflate, Amp.payloadKey, hsmall] using hparse
  · by_cases hsmall :
      (Amp.payloadBytes jm (Amp.MsgSt.mk h body false [])).length < Amp.compressionLenLimit
    · simpa [Amp.MarshalDeflate, Amp.marshal, Amp.alookup, Amp.CompressionNone,
        Amp.CompressionDeflate, Amp.payloadKey, hsmall] using hparse
    · have hund : Amp.Undeflate fd
          (Amp.deflate fc (Amp.payloadBytes jm (Amp.MsgSt.mk h body false [])))
          = Amp.payloadBytes jm (Amp.MsgSt.mk h body false []) := by
        unfold Amp.Undeflate Amp.deflate
        rw [if_pos hfl1]
        exact hfl2
      simp only [Amp.MarshalDeflate, Amp.marshal, Amp.alookup, Amp.CompressionNone,
        Amp.CompressionDeflate, Amp.payloadKey, hsmall]
      simp only [if_false, Bool.false_eq_true]
      simp [hund, hparse, hsmall]

/-- Concrete header used by the C3 witness. -/
def c3hW : Amp.MsgHeader :=
  Amp.MsgHeader.mk 3 "r" 7 "" 0 "t/p" 12 1 1 [("a", 4)]

/-- Concrete body (containing a separator byte) used by the C3 witness. -/
def c3body : List Nat := [1, 10, 2]

/-- Concrete header codec used by the C3 witness. -/
def c3jm : Amp.MsgHeader → List Nat := fun _ => [65, 66]

/-- Concrete header decoder used by the C3 witness. -/
def c3ju : List Nat → Option Amp.MsgHeader :=
  fun bs => if bs = [65, 66] then some c3hW else none

/-- Concrete flate writer used by the C3 witness (appends a 5-byte tail,
so the trimmed stream plus the 4-byte terminator determines the input). -/
def c3fc : List Nat → List Nat := fun x => x ++ [9, 9, 9, 9, 9]

/-- Concrete flate reader used by the C3 witness. -/
def c3fd : List Nat → List Nat := fun y => y.take (y.length - 5)

/-- C3 witness: the round-trip evaluated at a concrete envelope and
concrete codecs satisfying the library contracts. -/
theorem C3_witness :
    c3ju (c3jm c3hW) = some c3hW ∧
    Amp.separtorByte ∉ c3jm c3hW ∧
    Amp.Parse c3ju (Amp.Marshal c3jm c3fc (Amp.MsgSt.mk c3hW c3body false [])).1
      = some (c3hW, c3body) ∧
    Amp.Parse c3ju
      (if (Amp.MarshalDeflate c3jm c3fc (Amp.MsgSt.mk c3hW c3body false [])).2.1
       then Amp.Undeflate c3fd
         (Amp.MarshalDeflate c3jm c3fc (Amp.MsgSt.mk c3hW c3body false [])).1
       else (Amp.MarshalDeflate c3jm c3fc (Amp.MsgSt.mk c3hW c3body false [])).1)
      = some (c3hW, c3body) :=
  have h := C3_parse_marshal_roundtrip c3jm c3ju c3fc c3fd c3hW c3body
    (by decide) (by decide) (by decide) (by decide)
  ⟨by decide, by decide, h.1, h.2⟩


namespace Amp

/-- `payloadBytes` reads only the header and the body. -/
theorem payloadBytes_mk (jm : MsgHeader → List Nat) (h : MsgHeader) (body : List Nat)
    (nc : Bool) (pl : List (Nat × List Nat)) :
    payloadBytes jm (MsgSt.mk h body nc pl) = jm h ++ [separtorByte] ++ body := rfl

/-- On a fresh envelope whose payload is below the compression threshold,
a deflate-capable marshal returns the raw payload, reports no
compression, and memoizes `noCompression`; a second deflate-capable
marshal on the resulting state again reports no compression. -/
theorem marshal_deflate_small (jm : MsgHeader → List Nat) (fc : List Nat → List Nat)
    (h : MsgHeader) (body : List Nat)
    (hs : (payloadBytes jm (MsgSt.mk h body false [])).length < compressionLenLimit) :
    (MarshalDeflate jm fc (MsgSt.mk h body false [])).1
      = payloadBytes jm (MsgSt.mk h body false []) ∧
    (MarshalDeflate jm fc (MsgSt.mk h body false [])).2.1 = false ∧
    (MarshalDeflate jm fc (MsgSt.mk h body false [])).2.2.noCompression = true ∧
    (MarshalDeflate jm fc
      (MarshalDeflate jm fc (MsgSt.mk h body false [])).2.2).2.1 = false := by
  simp only [payloadBytes_mk, List.append_assoc, List.singleton_append,
    List.length_append, List.length_cons] at hs
  simp [MarshalDeflate, marshal, alookup, ainsert, payloadKey,
    CompressionNone, CompressionDeflate, payloadBytes, hs]

/-- On a fresh envelope whose payload is at or above the compression
threshold, a deflate-capable marshal returns the deflated payload and
reports compression. -/
theorem marshal_deflate_big (jm : MsgHeader → List Nat) (fc : List Nat → List Nat)
    (h : MsgHeader) (body : List Nat)
    (hb : compressionLenLimit ≤ (payloadBytes jm (MsgSt.mk h body false [])).length) :
    (MarshalDeflate jm fc (MsgSt.mk h body false [])).2.1 = true ∧
    (MarshalDeflate jm fc (MsgSt.mk h body false [])).1
      = deflate fc (payloadBytes jm (MsgSt.mk h body false [])) := by
  simp only [payloadBytes_mk, List.append_assoc, List.singleton_append,
    List.length_append, List.length_cons] at hb
  have hns : ¬ ((jm h).length + (body.length + 1) < compressionLenLimit) := by omega
  simp [MarshalDeflate, marshal, alookup, ainsert, payloadKey,
    CompressionNone, CompressionDeflate, payloadBytes, hns]

end Amp

/-- Modelled from the spec: Go's `encoding/json` encoding of the
all-default header. Every exported field of `Msg` is tagged `omitempty`
and is at its zero value in `zeroHeader`, so the encoded header is the
two bytes `123 125` of the empty JSON object. (Used only at
`zeroHeader`.) -/
def jsonZeroHeaderBytes : Amp.MsgHeader → List Nat := fun _ => [123, 125]

/-- C4 counterexample: an envelope whose BODY is 8191 bytes — strictly
below 8 KiB — still yields a compressed payload when deflate is
requested, because the threshold in `marshal` compares the whole
payload (header + separator byte + body), which here is 8194 bytes,
at least 8 KiB. -/
theorem C4_counterexample :
    (List.replicate 8191 0).length < 8 * 1024 ∧
    (Amp.MarshalDeflate jsonZeroHeaderBytes (fun x => x)
      (Amp.MsgSt.mk Amp.zeroHeader (List.replicate 8191 0) false [])).2.1 = true := by
  constructor
  · rw [List.length_replicate]
    norm_num
  · have hb : Amp.compressionLenLimit ≤ (Amp.payloadBytes jsonZeroHeaderBytes
        (Amp.MsgSt.mk Amp.zeroHeader (List.replicate 8191 0) false [])).length := by
      rw [Amp.payloadBytes_mk, List.length_append, List.length_append,
        List.length_replicate]
      norm_num [jsonZeroHeaderBytes, Amp.compressionLenLimit]
    exact (Amp.marshal_deflate_big jsonZeroHeaderBytes (fun x => x)
      Amp.zeroHeader (List.replicate 8191 0) hb).1

/-- C4 amended: the 8 KiB no-compression threshold applies to the whole
marshalled payload (header + separator + body), not to the body alone.
For a fresh envelope: if the payload is below the threshold, a deflate
request returns the payload uncompressed, reports no compression, and
memoizes `noCompression` permanently — a second deflate request also
reports no compression; if the payload is at or above the threshold, a
deflate request returns the deflate-compressed payload and reports
compression. -/
theorem C4_threshold_on_payload_length (jm : Amp.MsgHeader → List Nat)
    (fc : List Nat → List Nat) (h : Amp.MsgHeader) (body : List Nat) :
    ((Amp.payloadBytes jm (Amp.MsgSt.mk h body false [])).length < Amp.compressionLenLimit →
      (Amp.MarshalDeflate jm fc (Amp.MsgSt.mk h body false [])).1
        = Amp.payloadBytes jm (Amp.MsgSt.mk h body false []) ∧
      (Amp.MarshalDeflate jm fc (Amp.MsgSt.mk h body false [])).2.1 = false ∧
      (Amp.MarshalDeflate jm fc (Amp.MsgSt.mk h body false [])).2.2.noCompression = true ∧
      (Amp.MarshalDeflate jm fc
        (Amp.MarshalDeflate jm fc (Amp.MsgSt.mk h body false [])).2.2).2.1 = false) ∧
    (Amp.compressionLenLimit ≤ (Amp.payloadBytes jm (Amp.MsgSt.mk h body false [])).length →
      (Amp.MarshalDeflate jm fc (Amp.MsgSt.mk h body false [])).2.1 = true ∧
      (Amp.MarshalDeflate jm fc (Amp.MsgSt.mk h body false [])).1
        = Amp.deflate fc (Amp.payloadBytes jm (Amp.MsgSt.mk h body false []))) :=
  ⟨fun hs => Amp.marshal_deflate_small jm fc h body hs,
   fun hb => Amp.marshal_deflate_big jm fc h body hb⟩

/-- C4 witness: with the empty-object header encoding, a 7-byte body
(4-byte payload) is never compressed — also on a repeated request —
while an 8191-byte body (8194-byte payload) is compressed on request. -/
theorem C4_witness :
    ((Amp.payloadBytes jsonZeroHeaderBytes
        (Amp.MsgSt.mk Amp.zeroHeader [7] false [])).length < Amp.compressionLenLimit ∧
      (Amp.MarshalDeflate jsonZeroHeaderBytes (fun x => x)
        (Amp.MsgSt.mk Amp.zeroHeader [7] false [])).2.1 = false ∧
      (Amp.MarshalDeflate jsonZeroHeaderBytes (fun x => x)
        (Amp.MarshalDeflate jsonZeroHeaderBytes (fun x => x)
          (Amp.MsgSt.mk Amp.zeroHeader [7] false [])).2.2).2.1 = false) ∧
    (Amp.compressionLenLimit ≤ (Amp.payloadBytes jsonZeroHeaderBytes
        (Amp.MsgSt.mk Amp.zeroHeader (List.replicate 8191 0) false [])).length ∧
      (Amp.MarshalDeflate jsonZeroHeaderBytes (fun x => x)
        (Amp.MsgSt.mk Amp.zeroHeader (List.replicate 8191 0) false [])).2.1 = true) := by
  have hs : (Amp.payloadBytes jsonZeroHeaderBytes
      (Amp.MsgSt.mk Amp.zeroHeader [7] false [])).length < Amp.compressionLenLimit := by
    decide
  have hb : Amp.compressionLenLimit ≤ (Amp.payloadBytes jsonZeroHeaderBytes
      (Amp.MsgSt.mk Amp.zeroHeader (List.replicate 8191 0) false [])).length := by
    rw [Amp.payloadBytes_mk, List.length_append, List.length_append,
      List.length_replicate]
    norm_num [jsonZeroHeaderBytes, Amp.compressionLenLimit]
  have h1 := (C4_threshold_on_payload_length jsonZeroHeaderBytes (fun x => x)
    Amp.zeroHeader [7]).1 hs
  have h2 := (C4_threshold_on_payload_length jsonZeroHeaderBytes (fun x => x)
    Amp.zeroHeader (List.replicate 8191 0)).2 hb
  exact ⟨⟨hs, h1.2.1, h1.2.2.2⟩, hb, h2.1⟩
